import Mathlib

/-!
Verification of the BulletArm VTT baseline's `Agent` and `Trainer`
(`bulletarm_baselines/vtt/vtt/agent.py`, `bulletarm_baselines/vtt/vtt/trainer.py`)
via a shallow embedding in Lean.  Tensors of action components are modelled by
rationals (exact arithmetic), histories by lists (one environment slot of the
batch dimension; torch operations along the sequence dimension act slot-wise),
and the opaque neural networks (encoder, policy, critics) by explicit function
parameters, since only their input/output behaviour matters for the claims.
-/

namespace VTT

/-- A 5-dimensional action `(p, dx, dy, dz, dtheta)` as manipulated by
`Agent.decodeActions` / `Agent.convertPlanAction`. -/
@[ext]
structure Act where
  p : ℚ
  dx : ℚ
  dy : ℚ
  dz : ℚ
  dtheta : ℚ
deriving DecidableEq, Repr

namespace Agent

/-- `self.p_range = torch.tensor([0, 1])` (agent.py line 21). -/
def p_range : ℚ × ℚ := (0, 1)

/-- `self.dx_range = torch.tensor([-self.config.dpos, self.config.dpos])` (agent.py line 22). -/
def dx_range (dpos : ℚ) : ℚ × ℚ := (-dpos, dpos)

/-- `self.dy_range` (agent.py line 23), same bounds as `dx_range`. -/
def dy_range (dpos : ℚ) : ℚ × ℚ := (-dpos, dpos)

/-- `self.dz_range` (agent.py line 24), same bounds as `dx_range`. -/
def dz_range (dpos : ℚ) : ℚ × ℚ := (-dpos, dpos)

/-- `self.dtheta_range = torch.tensor([-self.config.drot, self.config.drot])` (agent.py line 25). -/
def dtheta_range (drot : ℚ) : ℚ × ℚ := (-drot, drot)

/-- The per-dimension affine transform used in `Agent.decodeActions`
(agent.py lines 108-113): `0.5 * (u + 1) * (hi - lo) + lo`. -/
def decodeDim (u lo hi : ℚ) : ℚ := 1/2 * (u + 1) * (hi - lo) + lo

/-- `Agent.decodeActions` (agent.py lines 94-117): maps normalized action
components to physical scale, returning `(unscaled_actions, actions)`. -/
def decodeActions (dpos drot : ℚ) (u : Act) : Act × Act :=
  let p := decodeDim u.p p_range.1 p_range.2
  let dx := decodeDim u.dx (dx_range dpos).1 (dx_range dpos).2
  let dy := decodeDim u.dy (dy_range dpos).1 (dy_range dpos).2
  let dz := decodeDim u.dz (dz_range dpos).1 (dz_range dpos).2
  let dtheta := decodeDim u.dtheta (dtheta_range drot).1 (dtheta_range drot).2
  (u, ⟨p, dx, dy, dz, dtheta⟩)

/-- `Agent.getUnscaledActions` (agent.py lines 143-154):
`2 * (action - range[0]) / (range[1] - range[0]) - 1`. -/
def getUnscaledActions (action : ℚ) (action_range : ℚ × ℚ) : ℚ :=
  2 * (action - action_range.1) / (action_range.2 - action_range.1) - 1

/-- `torch.Tensor.clamp(lo, hi)` as used in `Agent.convertPlanAction`
(agent.py lines 129-133): clamp a value into `[lo, hi]`. -/
def clamp (x lo hi : ℚ) : ℚ := min (max x lo) hi

/-- `Agent.convertPlanAction` (agent.py lines 119-141): clamp each planner
action dimension into its range, normalize it, and re-decode. -/
def convertPlanAction (dpos drot : ℚ) (plan_action : Act) : Act × Act :=
  let p := clamp plan_action.p p_range.1 p_range.2
  let dx := clamp plan_action.dx (dx_range dpos).1 (dx_range dpos).2
  let dy := clamp plan_action.dy (dy_range dpos).1 (dy_range dpos).2
  let dz := clamp plan_action.dz (dz_range dpos).1 (dz_range dpos).2
  let dtheta := clamp plan_action.dtheta (dtheta_range drot).1 (dtheta_range drot).2
  decodeActions dpos drot
    ⟨getUnscaledActions p p_range,
     getUnscaledActions dx (dx_range dpos),
     getUnscaledActions dy (dy_range dpos),
     getUnscaledActions dz (dz_range dpos),
     getUnscaledActions dtheta (dtheta_range drot)⟩

end Agent

section ActionLemmas

open Agent

/-- Denormalizing after normalizing is the identity on any dimension whose
range is non-degenerate. -/
lemma decodeDim_getUnscaledActions (lo hi x : ℚ) (h : lo < hi) :
    decodeDim (getUnscaledActions x (lo, hi)) lo hi = x := by
  have hne : hi - lo ≠ 0 := sub_ne_zero.mpr (ne_of_gt h)
  unfold decodeDim getUnscaledActions
  field_simp

/-- The affine decode of a normalized value in `[-1, 1]` lands in `[lo, hi]`. -/
lemma decodeDim_mem (lo hi u : ℚ) (h : lo < hi) (h1 : -1 ≤ u) (h2 : u ≤ 1) :
    lo ≤ decodeDim u lo hi ∧ decodeDim u lo hi ≤ hi := by
  unfold decodeDim
  constructor <;> nlinarith

/-- The affine decode of a normalized value above `1` overshoots `hi`. -/
lemma decodeDim_gt (lo hi u : ℚ) (h : lo < hi) (hu : 1 < u) :
    hi < decodeDim u lo hi := by
  unfold decodeDim; nlinarith

/-- The affine decode of a normalized value below `-1` undershoots `lo`. -/
lemma decodeDim_lt (lo hi u : ℚ) (h : lo < hi) (hu : u < -1) :
    decodeDim u lo hi < lo := by
  unfold decodeDim; nlinarith

/-- Clamping lands in the target interval. -/
lemma clamp_mem (x lo hi : ℚ) (h : lo ≤ hi) :
    lo ≤ clamp x lo hi ∧ clamp x lo hi ≤ hi := by
  unfold clamp
  exact ⟨le_min (le_max_right x lo) h, min_le_right _ _⟩

/-- Normalizing a value of `[lo, hi]` lands in `[-1, 1]`. -/
lemma getUnscaledActions_mem (x lo hi : ℚ) (h : lo < hi) (h1 : lo ≤ x) (h2 : x ≤ hi) :
    -1 ≤ getUnscaledActions x (lo, hi) ∧ getUnscaledActions x (lo, hi) ≤ 1 := by
  have hpos : 0 < hi - lo := by linarith
  unfold getUnscaledActions
  constructor
  · have h0 : 0 ≤ 2 * (x - lo) / (hi - lo) :=
      div_nonneg (by linarith) (le_of_lt hpos)
    linarith
  · have h2 : 2 * (x - lo) / (hi - lo) ≤ 2 := by
      rw [div_le_iff₀ hpos]; linarith
    linarith

/-- C1: for every action dimension with its configured range `[min,max]`
(`min < max` whenever `dpos, drot > 0`) and every physical value `a` within
its range, normalizing with `Agent.getUnscaledActions` and re-applying the
`decodeActions` affine transform returns `a` exactly. -/
theorem decodeActions_getUnscaledActions_roundtrip (dpos drot : ℚ)
    (hdpos : 0 < dpos) (hdrot : 0 < drot) (a : Act)
    (hp1 : Agent.p_range.1 ≤ a.p) (hp2 : a.p ≤ Agent.p_range.2)
    (hx1 : (Agent.dx_range dpos).1 ≤ a.dx) (hx2 : a.dx ≤ (Agent.dx_range dpos).2)
    (hy1 : (Agent.dy_range dpos).1 ≤ a.dy) (hy2 : a.dy ≤ (Agent.dy_range dpos).2)
    (hz1 : (Agent.dz_range dpos).1 ≤ a.dz) (hz2 : a.dz ≤ (Agent.dz_range dpos).2)
    (ht1 : (Agent.dtheta_range drot).1 ≤ a.dtheta) (ht2 : a.dtheta ≤ (Agent.dtheta_range drot).2) :
    (Agent.decodeActions dpos drot
      ⟨Agent.getUnscaledActions a.p Agent.p_range,
       Agent.getUnscaledActions a.dx (Agent.dx_range dpos),
       Agent.getUnscaledActions a.dy (Agent.dy_range dpos),
       Agent.getUnscaledActions a.dz (Agent.dz_range dpos),
       Agent.getUnscaledActions a.dtheta (Agent.dtheta_range drot)⟩).2 = a := by
  obtain ⟨p, dx, dy, dz, dtheta⟩ := a
  simp only [Agent.decodeActions, Agent.p_range, Agent.dx_range, Agent.dy_range,
    Agent.dz_range, Agent.dtheta_range, Act.mk.injEq]
  refine ⟨?_, ?_, ?_, ?_, ?_⟩
  · exact decodeDim_getUnscaledActions 0 1 p (by norm_num)
  · exact decodeDim_getUnscaledActions (-dpos) dpos dx (by linarith)
  · exact decodeDim_getUnscaledActions (-dpos) dpos dy (by linarith)
  · exact decodeDim_getUnscaledActions (-dpos) dpos dz (by linarith)
  · exact decodeDim_getUnscaledActions (-drot) drot dtheta (by linarith)

/-- C1 witness: concrete instantiation. -/
theorem decodeActions_getUnscaledActions_roundtrip_witness :
    (Agent.decodeActions 1 2
      ⟨Agent.getUnscaledActions (1/2) Agent.p_range,
       Agent.getUnscaledActions (1/4) (Agent.dx_range 1),
       Agent.getUnscaledActions (-1) (Agent.dy_range 1),
       Agent.getUnscaledActions 1 (Agent.dz_range 1),
       Agent.getUnscaledActions (3/2) (Agent.dtheta_range 2)⟩).2
      = ⟨1/2, 1/4, -1, 1, 3/2⟩ :=
  decodeActions_getUnscaledActions_roundtrip 1 2 (by norm_num) (by norm_num)
    ⟨1/2, 1/4, -1, 1, 3/2⟩
    (by norm_num [Agent.p_range]) (by norm_num [Agent.p_range])
    (by norm_num [Agent.dx_range]) (by norm_num [Agent.dx_range])
    (by norm_num [Agent.dy_range]) (by norm_num [Agent.dy_range])
    (by norm_num [Agent.dz_range]) (by norm_num [Agent.dz_range])
    (by norm_num [Agent.dtheta_range]) (by norm_num [Agent.dtheta_range])

/-- C2: for every normalized input with components in `[-1, 1]`, the scaled
action returned by `Agent.decodeActions` lies within each dimension's
configured physical range; and since no clamping is applied, out-of-range
normalized components yield out-of-range physical components. -/
theorem decodeActions_range (dpos drot : ℚ) (hdpos : 0 < dpos) (hdrot : 0 < drot)
    (u : Act)
    (hp1 : -1 ≤ u.p) (hp2 : u.p ≤ 1)
    (hx1 : -1 ≤ u.dx) (hx2 : u.dx ≤ 1)
    (hy1 : -1 ≤ u.dy) (hy2 : u.dy ≤ 1)
    (hz1 : -1 ≤ u.dz) (hz2 : u.dz ≤ 1)
    (ht1 : -1 ≤ u.dtheta) (ht2 : u.dtheta ≤ 1) :
    (0 ≤ ((Agent.decodeActions dpos drot u).2).p ∧ ((Agent.decodeActions dpos drot u).2).p ≤ 1) ∧
    (-dpos ≤ ((Agent.decodeActions dpos drot u).2).dx ∧ ((Agent.decodeActions dpos drot u).2).dx ≤ dpos) ∧
    (-dpos ≤ ((Agent.decodeActions dpos drot u).2).dy ∧ ((Agent.decodeActions dpos drot u).2).dy ≤ dpos) ∧
    (-dpos ≤ ((Agent.decodeActions dpos drot u).2).dz ∧ ((Agent.decodeActions dpos drot u).2).dz ≤ dpos) ∧
    (-drot ≤ ((Agent.decodeActions dpos drot u).2).dtheta ∧ ((Agent.decodeActions dpos drot u).2).dtheta ≤ drot) ∧
    (∀ v : Act, 1 < v.p → 1 < ((Agent.decodeActions dpos drot v).2).p) ∧
    (∀ v : Act, v.p < -1 → ((Agent.decodeActions dpos drot v).2).p < 0) ∧
    (∀ v : Act, 1 < v.dx → dpos < ((Agent.decodeActions dpos drot v).2).dx) ∧
    (∀ v : Act, v.dx < -1 → ((Agent.decodeActions dpos drot v).2).dx < -dpos) ∧
    (∀ v : Act, 1 < v.dy → dpos < ((Agent.decodeActions dpos drot v).2).dy) ∧
    (∀ v : Act, v.dy < -1 → ((Agent.decodeActions dpos drot v).2).dy < -dpos) ∧
    (∀ v : Act, 1 < v.dz → dpos < ((Agent.decodeActions dpos drot v).2).dz) ∧
    (∀ v : Act, v.dz < -1 → ((Agent.decodeActions dpos drot v).2).dz < -dpos) ∧
    (∀ v : Act, 1 < v.dtheta → drot < ((Agent.decodeActions dpos drot v).2).dtheta) ∧
    (∀ v : Act, v.dtheta < -1 → ((Agent.decodeActions dpos drot v).2).dtheta < -drot) := by
  have hdx : -dpos < dpos := by linarith
  have hdθ : -drot < drot := by linarith
  refine ⟨?_, ?_, ?_, ?_, ?_, ?_, ?_, ?_, ?_, ?_, ?_, ?_, ?_, ?_, ?_⟩
  · exact decodeDim_mem 0 1 u.p (by norm_num) hp1 hp2
  · exact decodeDim_mem (-dpos) dpos u.dx hdx hx1 hx2
  · exact decodeDim_mem (-dpos) dpos u.dy hdx hy1 hy2
  · exact decodeDim_mem (-dpos) dpos u.dz hdx hz1 hz2
  · exact decodeDim_mem (-drot) drot u.dtheta hdθ ht1 ht2
  · exact fun v hv => decodeDim_gt 0 1 v.p (by norm_num) hv
  · exact fun v hv => decodeDim_lt 0 1 v.p (by norm_num) hv
  · exact fun v hv => decodeDim_gt (-dpos) dpos v.dx hdx hv
  · exact fun v hv => decodeDim_lt (-dpos) dpos v.dx hdx hv
  · exact fun v hv => decodeDim_gt (-dpos) dpos v.dy hdx hv
  · exact fun v hv => decodeDim_lt (-dpos) dpos v.dy hdx hv
  · exact fun v hv => decodeDim_gt (-dpos) dpos v.dz hdx hv
  · exact fun v hv => decodeDim_lt (-dpos) dpos v.dz hdx hv
  · exact fun v hv => decodeDim_gt (-drot) drot v.dtheta hdθ hv
  · exact fun v hv => decodeDim_lt (-drot) drot v.dtheta hdθ hv

/-- C2 witness: concrete instantiation at `dpos = 1`, `drot = 1`. -/
theorem decodeActions_range_witness :
    (0 < (1 : ℚ)) ∧
    ((0 ≤ ((Agent.decodeActions 1 1 ⟨0, 1/2, -1/2, 1, -1⟩).2).p ∧
        ((Agent.decodeActions 1 1 ⟨0, 1/2, -1/2, 1, -1⟩).2).p ≤ 1) ∧
      (-1 ≤ ((Agent.decodeActions 1 1 ⟨0, 1/2, -1/2, 1, -1⟩).2).dx ∧
        ((Agent.decodeActions 1 1 ⟨0, 1/2, -1/2, 1, -1⟩).2).dx ≤ 1) ∧
      (-1 ≤ ((Agent.decodeActions 1 1 ⟨0, 1/2, -1/2, 1, -1⟩).2).dy ∧
        ((Agent.decodeActions 1 1 ⟨0, 1/2, -1/2, 1, -1⟩).2).dy ≤ 1) ∧
      (-1 ≤ ((Agent.decodeActions 1 1 ⟨0, 1/2, -1/2, 1, -1⟩).2).dz ∧
        ((Agent.decodeActions 1 1 ⟨0, 1/2, -1/2, 1, -1⟩).2).dz ≤ 1) ∧
      (-1 ≤ ((Agent.decodeActions 1 1 ⟨0, 1/2, -1/2, 1, -1⟩).2).dtheta ∧
        ((Agent.decodeActions 1 1 ⟨0, 1/2, -1/2, 1, -1⟩).2).dtheta ≤ 1) ∧
      (∀ v : Act, 1 < v.p → 1 < ((Agent.decodeActions 1 1 v).2).p) ∧
      (∀ v : Act, v.p < -1 → ((Agent.decodeActions 1 1 v).2).p < 0) ∧
      (∀ v : Act, 1 < v.dx → 1 < ((Agent.decodeActions 1 1 v).2).dx) ∧
      (∀ v : Act, v.dx < -1 → ((Agent.decodeActions 1 1 v).2).dx < -1) ∧
      (∀ v : Act, 1 < v.dy → 1 < ((Agent.decodeActions 1 1 v).2).dy) ∧
      (∀ v : Act, v.dy < -1 → ((Agent.decodeActions 1 1 v).2).dy < -1) ∧
      (∀ v : Act, 1 < v.dz → 1 < ((Agent.decodeActions 1 1 v).2).dz) ∧
      (∀ v : Act, v.dz < -1 → ((Agent.decodeActions 1 1 v).2).dz < -1) ∧
      (∀ v : Act, 1 < v.dtheta → 1 < ((Agent.decodeActions 1 1 v).2).dtheta) ∧
      (∀ v : Act, v.dtheta < -1 → ((Agent.decodeActions 1 1 v).2).dtheta < -1)) :=
  ⟨by norm_num,
   decodeActions_range 1 1 (by norm_num) (by norm_num) ⟨0, 1/2, -1/2, 1, -1⟩
     (by norm_num) (by norm_num) (by norm_num) (by norm_num) (by norm_num)
     (by norm_num) (by norm_num) (by norm_num) (by norm_num) (by norm_num)⟩

/-- C3: `Agent.convertPlanAction` clamps each dimension into its configured
range before normalizing, the resulting normalized components always lie in
`[-1, 1]`, and the scaled output is the re-decoded value of those normalized
components. -/
theorem convertPlanAction_clamps (dpos drot : ℚ) (hdpos : 0 < dpos) (hdrot : 0 < drot)
    (a : Act) :
    (Agent.convertPlanAction dpos drot a).1 =
      ⟨Agent.getUnscaledActions (Agent.clamp a.p 0 1) Agent.p_range,
       Agent.getUnscaledActions (Agent.clamp a.dx (-dpos) dpos) (Agent.dx_range dpos),
       Agent.getUnscaledActions (Agent.clamp a.dy (-dpos) dpos) (Agent.dy_range dpos),
       Agent.getUnscaledActions (Agent.clamp a.dz (-dpos) dpos) (Agent.dz_range dpos),
       Agent.getUnscaledActions (Agent.clamp a.dtheta (-drot) drot) (Agent.dtheta_range drot)⟩ ∧
    (-1 ≤ ((Agent.convertPlanAction dpos drot a).1).p ∧ ((Agent.convertPlanAction dpos drot a).1).p ≤ 1) ∧
    (-1 ≤ ((Agent.convertPlanAction dpos drot a).1).dx ∧ ((Agent.convertPlanAction dpos drot a).1).dx ≤ 1) ∧
    (-1 ≤ ((Agent.convertPlanAction dpos drot a).1).dy ∧ ((Agent.convertPlanAction dpos drot a).1).dy ≤ 1) ∧
    (-1 ≤ ((Agent.convertPlanAction dpos drot a).1).dz ∧ ((Agent.convertPlanAction dpos drot a).1).dz ≤ 1) ∧
    (-1 ≤ ((Agent.convertPlanAction dpos drot a).1).dtheta ∧ ((Agent.convertPlanAction dpos drot a).1).dtheta ≤ 1) ∧
    Agent.convertPlanAction dpos drot a =
      Agent.decodeActions dpos drot (Agent.convertPlanAction dpos drot a).1 := by
  have hdx : -dpos < dpos := by linarith
  have hdθ : -drot < drot := by linarith
  have hcp := clamp_mem a.p 0 1 (by norm_num)
  have hcx := clamp_mem a.dx (-dpos) dpos (le_of_lt hdx)
  have hcy := clamp_mem a.dy (-dpos) dpos (le_of_lt hdx)
  have hcz := clamp_mem a.dz (-dpos) dpos (le_of_lt hdx)
  have hct := clamp_mem a.dtheta (-drot) drot (le_of_lt hdθ)
  refine ⟨rfl, ?_, ?_, ?_, ?_, ?_, rfl⟩
  · exact getUnscaledActions_mem _ 0 1 (by norm_num) hcp.1 hcp.2
  · exact getUnscaledActions_mem _ (-dpos) dpos hdx hcx.1 hcx.2
  · exact getUnscaledActions_mem _ (-dpos) dpos hdx hcy.1 hcy.2
  · exact getUnscaledActions_mem _ (-dpos) dpos hdx hcz.1 hcz.2
  · exact getUnscaledActions_mem _ (-drot) drot hdθ hct.1 hct.2

/-- C3 witness: concrete out-of-range planner action at `dpos = 1`, `drot = 2`. -/
theorem convertPlanAction_clamps_witness :
    (Agent.convertPlanAction 1 2 ⟨5, -9, 3, 0, 7⟩).1 =
      ⟨Agent.getUnscaledActions (Agent.clamp 5 0 1) Agent.p_range,
       Agent.getUnscaledActions (Agent.clamp (-9) (-1) 1) (Agent.dx_range 1),
       Agent.getUnscaledActions (Agent.clamp 3 (-1) 1) (Agent.dy_range 1),
       Agent.getUnscaledActions (Agent.clamp 0 (-1) 1) (Agent.dz_range 1),
       Agent.getUnscaledActions (Agent.clamp 7 (-2) 2) (Agent.dtheta_range 2)⟩ ∧
    (-1 ≤ ((Agent.convertPlanAction 1 2 ⟨5, -9, 3, 0, 7⟩).1).p ∧
      ((Agent.convertPlanAction 1 2 ⟨5, -9, 3, 0, 7⟩).1).p ≤ 1) ∧
    (-1 ≤ ((Agent.convertPlanAction 1 2 ⟨5, -9, 3, 0, 7⟩).1).dx ∧
      ((Agent.convertPlanAction 1 2 ⟨5, -9, 3, 0, 7⟩).1).dx ≤ 1) ∧
    (-1 ≤ ((Agent.convertPlanAction 1 2 ⟨5, -9, 3, 0, 7⟩).1).dy ∧
      ((Agent.convertPlanAction 1 2 ⟨5, -9, 3, 0, 7⟩).1).dy ≤ 1) ∧
    (-1 ≤ ((Agent.convertPlanAction 1 2 ⟨5, -9, 3, 0, 7⟩).1).dz ∧
      ((Agent.convertPlanAction 1 2 ⟨5, -9, 3, 0, 7⟩).1).dz ≤ 1) ∧
    (-1 ≤ ((Agent.convertPlanAction 1 2 ⟨5, -9, 3, 0, 7⟩).1).dtheta ∧
      ((Agent.convertPlanAction 1 2 ⟨5, -9, 3, 0, 7⟩).1).dtheta ≤ 1) ∧
    Agent.convertPlanAction 1 2 ⟨5, -9, 3, 0, 7⟩ =
      Agent.decodeActions 1 2 (Agent.convertPlanAction 1 2 ⟨5, -9, 3, 0, 7⟩).1 :=
  convertPlanAction_clamps 1 2 (by norm_num) (by norm_num) ⟨5, -9, 3, 0, 7⟩

end ActionLemmas

/-! ## History buffers of the Agent (agent.py lines 51-92)

One environment slot of the batch dimension is modelled; the torch operations
(`torch.roll` along dim 1, assignment to index `-1`) act on each slot of the
batch independently, so the slot-wise model captures them exactly. -/

/-- A vision frame: channels × height × width of rational pixel values. -/
abbrev Frame := List (List (List ℚ))

/-- The configuration fields of the task config read by the `Agent`. -/
structure Config where
  dpos : ℚ
  drot : ℚ
  max_force : ℚ
  action_dim : ℕ
  seq_len : ℕ
  vision_size : ℕ
  vision_channels : ℕ
  force_dim : ℕ
deriving DecidableEq, Repr

namespace Agent

/-- Center-crop one axis of a tensor to `out` entries. -/
def centerCropList {α : Type} (l : List α) (out : ℕ) : List α :=
  (l.drop ((l.length - out) / 2)).take out

/-- Modelled from the spec: `torch_utils.centerCrop` (not under `src/`) —
vision is center-cropped to the configured observation size, i.e. the center
`out × out` window of each channel is kept. -/
def centerCrop (img : Frame) (out : ℕ) : Frame :=
  img.map fun ch => (centerCropList ch out).map fun row => centerCropList row out

/-- Modelled from the spec: `torch_utils.normalizeForce` (not under `src/`) —
force is normalized by the configured maximum-force scale factor. -/
def normalizeForce (force : List ℚ) (max_force : ℚ) : List ℚ :=
  force.map fun x => x / max_force

/-- The mutable history state of one environment slot of the `Agent`. -/
structure AgentState where
  vision_history : List Frame
  force_history : List (List ℚ)
  action_history : List (List ℚ)
deriving DecidableEq, Repr

/-- An all-zero vision frame of the configured shape. -/
def zeroFrame (cfg : Config) : Frame :=
  List.replicate cfg.vision_channels
    (List.replicate cfg.vision_size (List.replicate cfg.vision_size 0))

/-- `Agent.resetEpisode` (agent.py lines 51-54): zero-filled histories of
`seq_len` vision frames, `seq_len` force readings and `seq_len - 1` actions. -/
def resetEpisode (cfg : Config) : AgentState :=
  ⟨List.replicate cfg.seq_len (zeroFrame cfg),
   List.replicate cfg.seq_len (List.replicate cfg.force_dim 0),
   List.replicate (cfg.seq_len - 1) (List.replicate cfg.action_dim 0)⟩

/-- The history update of `Agent.getAction`: `torch.roll(h, -1, 1)` followed
by overwriting slot `-1` drops the oldest entry and appends the new one. -/
def shiftAppend {α : Type} (hist : List α) (new : α) : List α :=
  hist.drop 1 ++ [new]

/-- `Agent.getAction` (agent.py lines 56-92).  The latent encoder composed
with the policy head (`self.latent.encoder` and `self.actor.sample`, external
networks) is the function parameter `sample`, mapping the shifted vision and
force histories and the current action history to a sampled normalized
action.  `force` is the raw force batch for this slot (history × force_dim),
of which only the latest timestep `force[-1]` is used.  Returns the updated
state, the `(unscaled, scaled)` action pair and the placeholder value `0`. -/
def getAction (cfg : Config)
    (sample : List Frame → List (List ℚ) → List (List ℚ) → List ℚ)
    (st : AgentState) (vision : Frame) (force : List (List ℚ)) :
    AgentState × (Act × Act) × ℚ :=
  let v := centerCrop vision cfg.vision_size
  let f := normalizeForce (force.getLastD []) cfg.max_force
  let vh := shiftAppend st.vision_history v
  let fh := shiftAppend st.force_history f
  let a := sample vh fh st.action_history
  let ah := shiftAppend st.action_history a
  let decoded := decodeActions cfg.dpos cfg.drot
    ⟨a.getD 0 0, a.getD 1 0, a.getD 2 0, a.getD 3 0, a.getD 4 0⟩
  (⟨vh, fh, ah⟩, decoded, 0)

end Agent

section HistoryLemmas

open Agent

/-- Shifting preserves the length of a nonempty history. -/
lemma shiftAppend_length {α : Type} (l : List α) (x : α) (h : 1 ≤ l.length) :
    (shiftAppend l x).length = l.length := by
  simp [shiftAppend]
  omega

/-- After a shift, the last slot holds the new entry. -/
lemma shiftAppend_getD_last {α : Type} (l : List α) (x : α) (d : α) :
    (shiftAppend l x).getD (l.length - 1) d = x := by
  unfold shiftAppend
  rw [List.getD_eq_getElem?_getD, List.getElem?_append_right (by simp)]
  simp

/-- After a shift, slot `i` (for `i` before the last slot) holds what was
previously in slot `i + 1`. -/
lemma shiftAppend_getD {α : Type} (l : List α) (x : α) (d : α) (i : ℕ)
    (hi : i < l.length - 1) :
    (shiftAppend l x).getD i d = l.getD (i + 1) d := by
  unfold shiftAppend
  rw [List.getD_eq_getElem?_getD, List.getElem?_append_left (by simp; omega),
    List.getElem?_drop, List.getD_eq_getElem?_getD, Nat.add_comm 1 i]

/-- C4: after exactly one `getAction` call with sequence length at least 2,
the vision and force history buffers satisfy the shift-by-one property: the
last slot holds the preprocessed new observation (center-cropped vision;
force normalized by `max_force` from the latest force timestep), every slot
`i` before the last holds what was previously in slot `i + 1`, and in
particular the first slot holds what was previously in the second slot. -/
theorem getAction_shift (cfg : Config)
    (sample : List Frame → List (List ℚ) → List (List ℚ) → List ℚ)
    (st : AgentState) (vision : Frame) (force : List (List ℚ))
    (hseq : 2 ≤ cfg.seq_len)
    (hv : st.vision_history.length = cfg.seq_len)
    (hf : st.force_history.length = cfg.seq_len) :
    ((Agent.getAction cfg sample st vision force).1).vision_history.getD (cfg.seq_len - 1) []
      = Agent.centerCrop vision cfg.vision_size ∧
    ((Agent.getAction cfg sample st vision force).1).force_history.getD (cfg.seq_len - 1) []
      = Agent.normalizeForce (force.getLastD []) cfg.max_force ∧
    (∀ i, i < cfg.seq_len - 1 →
      ((Agent.getAction cfg sample st vision force).1).vision_history.getD i []
        = st.vision_history.getD (i + 1) []) ∧
    (∀ i, i < cfg.seq_len - 1 →
      ((Agent.getAction cfg sample st vision force).1).force_history.getD i []
        = st.force_history.getD (i + 1) []) ∧
    ((Agent.getAction cfg sample st vision force).1).vision_history.getD 0 []
      = st.vision_history.getD 1 [] ∧
    ((Agent.getAction cfg sample st vision force).1).force_history.getD 0 []
      = st.force_history.getD 1 [] := by
  refine ⟨?_, ?_, ?_, ?_, ?_, ?_⟩
  · show (Agent.shiftAppend st.vision_history
      (Agent.centerCrop vision cfg.vision_size)).getD (cfg.seq_len - 1) [] = _
    rw [← hv]
    exact shiftAppend_getD_last _ _ _
  · show (Agent.shiftAppend st.force_history
      (Agent.normalizeForce (force.getLastD []) cfg.max_force)).getD (cfg.seq_len - 1) [] = _
    rw [← hf]
    exact shiftAppend_getD_last _ _ _
  · intro i hi
    exact shiftAppend_getD st.vision_history _ [] i (by omega)
  · intro i hi
    exact shiftAppend_getD st.force_history _ [] i (by omega)
  · exact shiftAppend_getD st.vision_history _ [] 0 (by omega)
  · exact shiftAppend_getD st.force_history _ [] 0 (by omega)

/-- A small concrete configuration (sequence length 2) used for witnesses. -/
def cfgW : Config := ⟨1, 1, 1, 5, 2, 1, 1, 1⟩

/-- A concrete stand-in for the encoder-plus-policy sampling function. -/
def sampleW : List Frame → List (List ℚ) → List (List ℚ) → List ℚ :=
  fun _ _ _ => [0, 0, 0, 0, 0]

/-- C4 witness: concrete instantiation at `cfgW` starting from the reset state. -/
theorem getAction_shift_witness :
    (2 ≤ cfgW.seq_len ∧
      (Agent.resetEpisode cfgW).vision_history.length = cfgW.seq_len ∧
      (Agent.resetEpisode cfgW).force_history.length = cfgW.seq_len) ∧
    (((Agent.getAction cfgW sampleW (Agent.resetEpisode cfgW) [[[1]]] [[2]]).1).vision_history.getD (cfgW.seq_len - 1) []
        = Agent.centerCrop [[[1]]] cfgW.vision_size ∧
      ((Agent.getAction cfgW sampleW (Agent.resetEpisode cfgW) [[[1]]] [[2]]).1).force_history.getD (cfgW.seq_len - 1) []
        = Agent.normalizeForce (([[2]] : List (List ℚ)).getLastD []) cfgW.max_force ∧
      (∀ i, i < cfgW.seq_len - 1 →
        ((Agent.getAction cfgW sampleW (Agent.resetEpisode cfgW) [[[1]]] [[2]]).1).vision_history.getD i []
          = (Agent.resetEpisode cfgW).vision_history.getD (i + 1) []) ∧
      (∀ i, i < cfgW.seq_len - 1 →
        ((Agent.getAction cfgW sampleW (Agent.resetEpisode cfgW) [[[1]]] [[2]]).1).force_history.getD i []
          = (Agent.resetEpisode cfgW).force_history.getD (i + 1) []) ∧
      ((Agent.getAction cfgW sampleW (Agent.resetEpisode cfgW) [[[1]]] [[2]]).1).vision_history.getD 0 []
        = (Agent.resetEpisode cfgW).vision_history.getD 1 [] ∧
      ((Agent.getAction cfgW sampleW (Agent.resetEpisode cfgW) [[[1]]] [[2]]).1).force_history.getD 0 []
        = (Agent.resetEpisode cfgW).force_history.getD 1 []) :=
  ⟨⟨by decide, by decide, by decide⟩,
   getAction_shift cfgW sampleW (Agent.resetEpisode cfgW) [[[1]]] [[2]]
     (by decide) (by decide) (by decide)⟩

/-- C5 counterexample: with sequence length 2, the action history produced by
`resetEpisode` has length `seq_len - 1 = 1`, not `seq_len`, refuting the claim
that all three rolling windows have length `seq_len`. -/
theorem resetEpisode_action_history_length_ne :
    ¬ ((Agent.resetEpisode cfgW).action_history.length = cfgW.seq_len) := by
  decide

/-- C5 (amended): the vision and force histories have length `seq_len` and
the prior-action history has length `seq_len - 1` at all times (for a
configured sequence length at least 2): these lengths hold after
`resetEpisode`, where every buffer is also exactly zero-valued, and are
preserved by every `getAction` call. -/
theorem history_length_invariant (cfg : Config) (hseq : 2 ≤ cfg.seq_len) :
    ((Agent.resetEpisode cfg).vision_history.length = cfg.seq_len ∧
     (Agent.resetEpisode cfg).force_history.length = cfg.seq_len ∧
     (Agent.resetEpisode cfg).action_history.length = cfg.seq_len - 1) ∧
    ((∀ x ∈ (Agent.resetEpisode cfg).vision_history, x = Agent.zeroFrame cfg) ∧
     (∀ x ∈ (Agent.resetEpisode cfg).force_history, x = List.replicate cfg.force_dim 0) ∧
     (∀ x ∈ (Agent.resetEpisode cfg).action_history, x = List.replicate cfg.action_dim 0)) ∧
    (∀ (sample : List Frame → List (List ℚ) → List (List ℚ) → List ℚ)
       (st : AgentState) (vision : Frame) (force : List (List ℚ)),
      st.vision_history.length = cfg.seq_len →
      st.force_history.length = cfg.seq_len →
      st.action_history.length = cfg.seq_len - 1 →
      (((Agent.getAction cfg sample st vision force).1).vision_history.length = cfg.seq_len ∧
       ((Agent.getAction cfg sample st vision force).1).force_history.length = cfg.seq_len ∧
       ((Agent.getAction cfg sample st vision force).1).action_history.length = cfg.seq_len - 1)) := by
  refine ⟨⟨?_, ?_, ?_⟩, ⟨?_, ?_, ?_⟩, ?_⟩
  · simp [Agent.resetEpisode]
  · simp [Agent.resetEpisode]
  · simp [Agent.resetEpisode]
  · intro x hx
    exact List.eq_of_mem_replicate hx
  · intro x hx
    exact List.eq_of_mem_replicate hx
  · intro x hx
    exact List.eq_of_mem_replicate hx
  · intro sample st vision force h1 h2 h3
    refine ⟨?_, ?_, ?_⟩
    · show (Agent.shiftAppend st.vision_history _).length = _
      rw [shiftAppend_length _ _ (by omega), h1]
    · show (Agent.shiftAppend st.force_history _).length = _
      rw [shiftAppend_length _ _ (by omega), h2]
    · show (Agent.shiftAppend st.action_history _).length = _
      rw [shiftAppend_length _ _ (by omega), h3]

/-- C5 witness: concrete instantiation at `cfgW`. -/
theorem history_length_invariant_witness :
    2 ≤ cfgW.seq_len ∧
    (((Agent.resetEpisode cfgW).vision_history.length = cfgW.seq_len ∧
      (Agent.resetEpisode cfgW).force_history.length = cfgW.seq_len ∧
      (Agent.resetEpisode cfgW).action_history.length = cfgW.seq_len - 1) ∧
    ((∀ x ∈ (Agent.resetEpisode cfgW).vision_history, x = Agent.zeroFrame cfgW) ∧
     (∀ x ∈ (Agent.resetEpisode cfgW).force_history, x = List.replicate cfgW.force_dim 0) ∧
     (∀ x ∈ (Agent.resetEpisode cfgW).action_history, x = List.replicate cfgW.action_dim 0)) ∧
    (∀ (sample : List Frame → List (List ℚ) → List (List ℚ) → List ℚ)
       (st : AgentState) (vision : Frame) (force : List (List ℚ)),
      st.vision_history.length = cfgW.seq_len →
      st.force_history.length = cfgW.seq_len →
      st.action_history.length = cfgW.seq_len - 1 →
      (((Agent.getAction cfgW sample st vision force).1).vision_history.length = cfgW.seq_len ∧
       ((Agent.getAction cfgW sample st vision force).1).force_history.length = cfgW.seq_len ∧
       ((Agent.getAction cfgW sample st vision force).1).action_history.length = cfgW.seq_len - 1))) :=
  ⟨by decide, history_length_invariant cfgW (by decide)⟩

end HistoryLemmas

/-! ## Agent weight export/import (agent.py lines 156-173) -/

namespace Agent

/-- The parameter state of the latent, actor and critic models held by the
`Agent`.  Each state dict is modelled by its flat list of parameter values. -/
structure ModelWeights where
  latent : List ℚ
  actor : List ℚ
  critic : List ℚ
deriving DecidableEq, Repr

/-- `Agent.getWeights` (agent.py lines 156-161): the ordered triple of the
latent, actor and critic state dicts. -/
def getWeights (m : ModelWeights) : List ℚ × List ℚ × List ℚ :=
  (m.latent, m.actor, m.critic)

/-- `Agent.setWeights` (agent.py lines 163-173): load the three state dicts
into latent, actor and critic when `weights` is not `None`; do nothing
otherwise. -/
def setWeights (m : ModelWeights) (weights : Option (List ℚ × List ℚ × List ℚ)) :
    ModelWeights :=
  match weights with
  | none => m
  | some w => ⟨w.1, w.2.1, w.2.2⟩

end Agent

/-- C10: `setWeights none` is a no-op leaving all model parameters unchanged,
and for every weights triple, `setWeights` loads its components into latent,
actor and critic respectively, after which `getWeights` returns exactly that
triple. -/
theorem setWeights_getWeights (m : Agent.ModelWeights) :
    Agent.setWeights m none = m ∧
    (∀ w : List ℚ × List ℚ × List ℚ,
      Agent.setWeights m (some w) = ⟨w.1, w.2.1, w.2.2⟩ ∧
      Agent.getWeights (Agent.setWeights m (some w)) = w) := by
  refine ⟨rfl, fun w => ⟨rfl, ?_⟩⟩
  obtain ⟨w1, w2, w3⟩ := w
  rfl

/-! ## Trainer (trainer.py) -/

namespace Trainer

/-- `Trainer.softTargetUpdate` (trainer.py lines 343-348): Polyak averaging
of each target-critic parameter toward the corresponding live critic
parameter, `target = tau * live + (1 - tau) * target`. -/
def softTargetUpdate (tau : ℚ) (critic_target critic : List ℚ) : List ℚ :=
  List.zipWith (fun t l => tau * l + (1 - tau) * t) critic_target critic

/-- The external networks consumed by `Trainer.updateSLAC`: the policy's
sampling head (returning an action and its log-probability) and the twinned
live and target critics (each returning the two Q estimates). -/
structure SLACNets where
  actorSample : List ℚ → List ℚ × ℚ
  criticTarget : List ℚ → List ℚ → ℚ × ℚ
  critic : List ℚ → List ℚ → ℚ × ℚ

/-- The per-sample quantities computed by the critic part of `updateSLAC`. -/
structure SLACResult where
  target_q : ℚ
  critic_loss : ℚ
  td_error : ℚ
deriving Repr

/-- The critic-update computation of `Trainer.updateSLAC` (trainer.py lines
288-304), per batch sample: sample the next action and its log-probability on
the next feature-action vector, evaluate the target critic at the next latent
and next action, take the minimum of the twin estimates minus the entropy
bonus `alpha * next_log_pi`, form the TD target from the last timestep's
reward and done flag, and derive the squared-error critic loss and absolute
TD error of the live critic at the current latent and last action. -/
def updateSLAC (discount alpha : ℚ) (nets : SLACNets)
    (z next_z feature_action next_feature_action : List ℚ)
    (action_batch : List (List ℚ)) (reward_batch done_batch : List ℚ) :
    SLACResult :=
  let next_action := (nets.actorSample next_feature_action).1
  let next_log_pi := (nets.actorSample next_feature_action).2
  let next_q1 := (nets.criticTarget next_z next_action).1
  let next_q2 := (nets.criticTarget next_z next_action).2
  let next_q := min next_q1 next_q2 - alpha * next_log_pi
  let target_q := reward_batch.getLastD 0 + (1 - done_batch.getLastD 0) * discount * next_q
  let curr_q1 := (nets.critic z (action_batch.getLastD [])).1
  let curr_q2 := (nets.critic z (action_batch.getLastD [])).2
  let critic_loss := (curr_q1 - target_q) ^ 2 + (curr_q2 - target_q) ^ 2
  let td_error := 1/2 * (|curr_q1 - target_q| + |curr_q2 - target_q|)
  ⟨target_q, critic_loss, td_error⟩

/-- The parameter state of the models owned by the `Trainer`. -/
structure Models where
  latent : List ℚ
  actor : List ℚ
  critic : List ℚ
deriving DecidableEq, Repr

/-- The loop state of `Trainer.continuousUpdateWeights`: the two step
counters, the number of loop-top condition checks performed so far (each of
which polls the shared-storage flags), and the model parameters. -/
structure TrainerState where
  pre_training_step : ℕ
  training_step : ℕ
  polls : ℕ
  models : Models
deriving DecidableEq, Repr

/-- One iteration of the pretraining loop of `continuousUpdateWeights`
(trainer.py lines 137-157): `updateLatent` followed by `updateLatentAlign`,
each stepping only the latent optimizer (trainer.py lines 242-244 and
263-265), then the counter increment.  The two gradient steps on the latent
parameters are the function parameters `latentStep` and `alignStep`, applied
to the sampled batch. -/
def pretrainIter (latentStep alignStep : List ℚ → List ℚ → List ℚ)
    (batch : List ℚ) (st : TrainerState) : TrainerState :=
  { st with
    models := { st.models with
      latent := alignStep batch (latentStep batch st.models.latent) }
    pre_training_step := st.pre_training_step + 1 }

/-- The pretraining loop of `continuousUpdateWeights` (trainer.py lines
134-157): while `pre_training_step < pretraining_steps` and the terminate
flag (polled at loop top, indexed here by the current step) is unset, run one
pretraining iteration on the prefetched batch.  The first argument is the
loop fuel, bounding the number of iterations unrolled. -/
def continuousUpdateWeightsPretrain (pretraining_steps : ℕ) (terminate : ℕ → Bool)
    (latentStep alignStep : List ℚ → List ℚ → List ℚ) (batches : ℕ → List ℚ) :
    ℕ → TrainerState → TrainerState
  | 0, st => st
  | n + 1, st =>
    if st.pre_training_step < pretraining_steps ∧ terminate st.pre_training_step = false then
      continuousUpdateWeightsPretrain pretraining_steps terminate latentStep alignStep batches n
        (pretrainIter latentStep alignStep (batches st.pre_training_step) st)
    else st

/-- One full update cycle of the policy-training loop (trainer.py lines
169-234): latent update, latent-alignment update, SAC update, soft target
update, scheduler/checkpoint/logging publication, and the counter increment,
abstracted as one atomic transformation `update` of the model parameters
indexed by the current training step.  One loop-top poll is consumed. -/
def trainIter (update : ℕ → Models → Models) (st : TrainerState) : TrainerState :=
  { st with
    models := update st.training_step st.models
    training_step := st.training_step + 1
    polls := st.polls + 1 }

/-- The policy-training loop of `continuousUpdateWeights` (trainer.py lines
160-234): at each loop top the terminate flag is polled (checks indexed by
`polls`); if unset and the step target is not reached, either the pause flag
defers the iteration (sleep and re-check, consuming one poll) or one full
update cycle runs.  The first argument is the loop fuel. -/
def continuousUpdateWeightsTrain (training_steps : ℕ) (terminate pause : ℕ → Bool)
    (update : ℕ → Models → Models) : ℕ → TrainerState → TrainerState
  | 0, st => st
  | n + 1, st =>
    if st.training_step < training_steps ∧ terminate st.polls = false then
      if pause st.polls then
        continuousUpdateWeightsTrain training_steps terminate pause update n
          { st with polls := st.polls + 1 }
      else
        continuousUpdateWeightsTrain training_steps terminate pause update n
          (trainIter update st)
    else st

end Trainer

section TrainerLemmas

open Trainer

/-- Pointwise description of the Polyak update. -/
lemma softTargetUpdate_getD (tau : ℚ) :
    ∀ (t l : List ℚ) (i : ℕ), i < t.length → i < l.length →
      (softTargetUpdate tau t l).getD i 0 = tau * l.getD i 0 + (1 - tau) * t.getD i 0 := by
  intro t
  induction t with
  | nil => intro l i h1 _; simp at h1
  | cons a t ih =>
    intro l i h1 h2
    cases l with
    | nil => simp at h2
    | cons b l =>
      cases i with
      | zero => simp [softTargetUpdate]
      | succ j =>
        simp only [softTargetUpdate, List.zipWith_cons_cons, List.getD_cons_succ]
        exact ih l j (by simpa using h1) (by simpa using h2)

/-- With `tau = 1` the Polyak update copies the live parameters. -/
lemma softTargetUpdate_tau_one :
    ∀ t l : List ℚ, t.length = l.length → softTargetUpdate 1 t l = l := by
  intro t
  induction t with
  | nil =>
    intro l h
    cases l with
    | nil => rfl
    | cons b l => simp at h
  | cons a t ih =>
    intro l h
    cases l with
    | nil => simp at h
    | cons b l =>
      simp only [softTargetUpdate, List.zipWith_cons_cons]
      have hb : (1 : ℚ) * b + (1 - 1) * a = b := by ring
      rw [hb]
      exact congrArg (List.cons b) (ih l (by simpa using h))

/-- With `tau = 0` the Polyak update leaves the target parameters unchanged. -/
lemma softTargetUpdate_tau_zero :
    ∀ t l : List ℚ, t.length = l.length → softTargetUpdate 0 t l = t := by
  intro t
  induction t with
  | nil => intro l _; rfl
  | cons a t ih =>
    intro l h
    cases l with
    | nil => simp at h
    | cons b l =>
      simp only [softTargetUpdate, List.zipWith_cons_cons]
      have ha : (0 : ℚ) * b + (1 - 0) * a = a := by ring
      rw [ha]
      exact congrArg (List.cons a) (ih l (by simpa using h))

/-- C6: one `softTargetUpdate` call sets every target-critic parameter to
`tau * live + (1 - tau) * target`; consequently with `tau = 1` the target
parameters exactly equal the live parameters after one call, and with
`tau = 0` they are unchanged. -/
theorem softTargetUpdate_polyak (tau : ℚ) (critic_target critic : List ℚ)
    (h : critic_target.length = critic.length) :
    (∀ i, i < critic_target.length →
      (Trainer.softTargetUpdate tau critic_target critic).getD i 0
        = tau * critic.getD i 0 + (1 - tau) * critic_target.getD i 0) ∧
    Trainer.softTargetUpdate 1 critic_target critic = critic ∧
    Trainer.softTargetUpdate 0 critic_target critic = critic_target :=
  ⟨fun i hi => softTargetUpdate_getD tau critic_target critic i hi (by omega),
   softTargetUpdate_tau_one critic_target critic h,
   softTargetUpdate_tau_zero critic_target critic h⟩

/-- C6 witness: concrete parameter lists at `tau = 1/2`. -/
theorem softTargetUpdate_polyak_witness :
    (∀ i, i < ([1, 2] : List ℚ).length →
      (Trainer.softTargetUpdate (1/2) [1, 2] [3, 4]).getD i 0
        = 1/2 * ([3, 4] : List ℚ).getD i 0 + (1 - 1/2) * ([1, 2] : List ℚ).getD i 0) ∧
    Trainer.softTargetUpdate 1 [1, 2] [3, 4] = [3, 4] ∧
    Trainer.softTargetUpdate 0 [1, 2] [3, 4] = [1, 2] :=
  softTargetUpdate_polyak (1/2) [1, 2] [3, 4] (by decide)

/-- C7: the TD target used for the critic loss in `updateSLAC` equals
`reward + (1 - done) * discount * next_q`, where `reward` and `done` come
from the last timestep of the sampled sub-sequence and `next_q` is the
minimum of the two target-critic estimates at the next latent and sampled
next action minus `alpha` times the next action's log-probability. -/
theorem updateSLAC_target_q (discount alpha : ℚ) (nets : Trainer.SLACNets)
    (z next_z feature_action next_feature_action : List ℚ)
    (action_batch : List (List ℚ)) (reward_batch done_batch : List ℚ) :
    (Trainer.updateSLAC discount alpha nets z next_z feature_action
        next_feature_action action_batch reward_batch done_batch).target_q
      = reward_batch.getLastD 0 + (1 - done_batch.getLastD 0) * discount *
          (min (nets.criticTarget next_z (nets.actorSample next_feature_action).1).1
               (nets.criticTarget next_z (nets.actorSample next_feature_action).1).2
            - alpha * (nets.actorSample next_feature_action).2) := rfl

/-- C8: the pretraining loop of `continuousUpdateWeights` never changes the
actor or critic parameters (only the latent parameters may change), and it
leaves the policy-training step counter untouched, for every number of
iterations, terminate-flag trace, latent gradient steps and batch stream. -/
theorem continuousUpdateWeightsPretrain_frame (pretraining_steps : ℕ)
    (terminate : ℕ → Bool) (latentStep alignStep : List ℚ → List ℚ → List ℚ)
    (batches : ℕ → List ℚ) (fuel : ℕ) (st : Trainer.TrainerState) :
    (Trainer.continuousUpdateWeightsPretrain pretraining_steps terminate
        latentStep alignStep batches fuel st).models.actor = st.models.actor ∧
    (Trainer.continuousUpdateWeightsPretrain pretraining_steps terminate
        latentStep alignStep batches fuel st).models.critic = st.models.critic ∧
    (Trainer.continuousUpdateWeightsPretrain pretraining_steps terminate
        latentStep alignStep batches fuel st).training_step = st.training_step := by
  induction fuel generalizing st with
  | zero => exact ⟨rfl, rfl, rfl⟩
  | succ n ih =>
    simp only [Trainer.continuousUpdateWeightsPretrain]
    split
    · exact ih _
    · exact ⟨rfl, rfl, rfl⟩

/-- C9: once the terminate flag is set (true from poll `k` on), the
policy-training loop runs at most the update cycles whose loop-top polls
preceded `k` — the counter advances by at most `k - polls` more full atomic
cycles — and if the flag is already set at the current loop-top poll, the
loop exits immediately without starting any new iteration. -/
theorem continuousUpdateWeightsTrain_terminate (training_steps : ℕ)
    (terminate pause : ℕ → Bool) (update : ℕ → Trainer.Models → Trainer.Models)
    (fuel k : ℕ) (st : Trainer.TrainerState)
    (hk : ∀ j, k ≤ j → terminate j = true) :
    (Trainer.continuousUpdateWeightsTrain training_steps terminate pause update
        fuel st).training_step ≤ st.training_step + (k - st.polls) ∧
    (k ≤ st.polls →
      Trainer.continuousUpdateWeightsTrain training_steps terminate pause update
        fuel st = st) := by
  induction fuel generalizing st with
  | zero => exact ⟨Nat.le_add_right _ _, fun _ => rfl⟩
  | succ n ih =>
    simp only [Trainer.continuousUpdateWeightsTrain]
    by_cases hC : st.training_step < training_steps ∧ terminate st.polls = false
    · rw [if_pos hC]
      have hlt : st.polls < k := by
        by_contra hge
        push_neg at hge
        have hterm := hk st.polls hge
        rw [hterm] at hC
        exact absurd hC.2 (by simp)
      constructor
      · by_cases hP : pause st.polls = true
        · rw [if_pos hP]
          have h1 : (Trainer.continuousUpdateWeightsTrain training_steps terminate
              pause update n { st with polls := st.polls + 1 }).training_step
              ≤ st.training_step + (k - (st.polls + 1)) :=
            (ih { st with polls := st.polls + 1 }).1
          omega
        · rw [if_neg hP]
          have h1 : (Trainer.continuousUpdateWeightsTrain training_steps terminate
              pause update n (Trainer.trainIter update st)).training_step
              ≤ (st.training_step + 1) + (k - (st.polls + 1)) :=
            (ih (Trainer.trainIter update st)).1
          omega
      · intro hc
        exact absurd hc (by omega)
    · rw [if_neg hC]
      exact ⟨Nat.le_add_right _ _, fun _ => rfl⟩

/-- A concrete loop state used for witnesses. -/
def stW : Trainer.TrainerState := ⟨0, 0, 0, ⟨[], [], []⟩⟩

/-- C9 witness: with the terminate flag set from the very first poll, the
loop exits at once and performs no update cycle. -/
theorem continuousUpdateWeightsTrain_terminate_witness :
    (Trainer.continuousUpdateWeightsTrain 3 (fun _ => true) (fun _ => false)
        (fun _ m => m) 2 stW).training_step ≤ stW.training_step + (0 - stW.polls) ∧
    (0 ≤ stW.polls →
      Trainer.continuousUpdateWeightsTrain 3 (fun _ => true) (fun _ => false)
        (fun _ m => m) 2 stW = stW) :=
  continuousUpdateWeightsTrain_terminate 3 (fun _ => true) (fun _ => false)
    (fun _ m => m) 2 0 stW (fun _ _ => rfl)

end TrainerLemmas

end VTT
